import Mathlib

/-!
Verification of the DhanVani-Data specification against a shallow embedding
of the repository's Python sources.

Strings are modelled as `List Char` (`Str`).  External effects are modelled
as explicit oracles:
* the wall clock read by `datetime.now(timezone.utc).time()` is a stream
  `clock : Nat → Nat` of times-of-day in seconds (the k-th window check
  reads `clock k`);
* the outcome of each `summarizer.summarize(url)` call in the batch driver
  is a stream `events : Nat → RowEvent` (`raise` models the call raising,
  `ret s` models it returning the Python value `s`, `none` for `None`);
* the DeepSeek chat-completion call wrapped by `AISummarizer._summarize_text`
  is an oracle `api : Str → Option Str` (`none` models an exception or an
  empty/absent response content, i.e. the paths on which the wrapper
  returns `None`);
* the NSE symbol lookup `get_symbol_from_name` is an oracle
  `symbol_of : Str → Option Str`;
* `hashlib.sha256(...).hexdigest()` is an oracle `sha256_hex : Str → Str`.

Database state is explicit: the summarization driver works on a list of
rows, the store writer on a list of inserted tuples.
-/

namespace DhanVani

/-- Python strings are modelled as lists of characters. -/
abbrev Str := List Char

/-- Python truthiness of an `Optional[str]` value: `None` and `""` are falsy. -/
def pyFalsy : Option Str → Bool
  | none => true
  | some s => s.isEmpty

/-- Python truthiness, positive form. -/
def pyTruthy (o : Option Str) : Bool := !pyFalsy o

/-! ### `summarize_articles.py`: the time-windowed batch driver -/

/-- `time(16, 30)` in seconds of the day (`summarize_articles.py` line 40). -/
def start_time : Nat := 16 * 3600 + 30 * 60

/-- `time(0, 30)` in seconds of the day (`summarize_articles.py` line 41). -/
def end_time : Nat := 30 * 60

/-- `is_within_summarization_window` (`summarize_articles.py` lines 37-46):
`now_utc >= start_time or now_utc <= end_time`, over a time of day given in
seconds since midnight. -/
def is_within_summarization_window (now_utc : Nat) : Bool :=
  decide (start_time ≤ now_utc) || decide (now_utc ≤ end_time)

/-- One row of a summarization table: primary key, URL column, summary column.
`none` models SQL NULL. -/
structure DRow where
  pk : Str
  url : Option Str
  summary : Option Str
deriving DecidableEq, Repr

/-- The `WHERE (summary IS NULL OR summary = '')` condition of the pending query. -/
def summaryPending : Option Str → Bool
  | none => true
  | some s => s.isEmpty

/-- The `WHERE url IS NOT NULL AND url <> ''` condition of the pending query. -/
def urlUsable : Option Str → Bool
  | none => false
  | some u => !u.isEmpty

/-- The driver's SELECT (`summarize_articles.py` lines 74-82): pk/url pairs of
rows with an empty summary and a usable URL, in table order. -/
def pendingOf (rows : List DRow) : List (Str × Str) :=
  rows.filterMap fun r =>
    if summaryPending r.summary && urlUsable r.url then some (r.pk, r.url.getD []) else none

/-- Outcome of one `summarizer.summarize(url)` call as seen by the driver:
the call raised, or returned the Python value `s` (`none` = `None`). -/
inductive RowEvent where
  | raise : RowEvent
  | ret : Option Str → RowEvent
deriving DecidableEq, Repr

/-- Effect of `UPDATE table SET summary = s WHERE pk = val` on the row list. -/
def set_summary (rows : List DRow) (pk : Str) (s : Str) : List DRow :=
  rows.map fun r => if r.pk = pk then ⟨r.pk, r.url, some s⟩ else r

/-- The literal failure marker `'[SUMMARY_FAILED]'` (`summarize_articles.py` line 120). -/
def failMarker : Str := "[SUMMARY_FAILED]".toList

/-- Observable result of the per-row loop of `process_table`: final table
state, whether the loop returned `False` because the window closed, the next
clock / event stream positions, the URLs passed to `summarizer.summarize`
(in call order), and the committed-update count. -/
structure RowsOut where
  tbl : List DRow
  halted : Bool
  ci : Nat
  ei : Nat
  calls : List Str
  count : Nat
deriving DecidableEq, Repr

/-- The `for i, (pk_val, url) in enumerate(records_to_process)` loop of
`process_table` (`summarize_articles.py` lines 90-126).  Before each row the
window is checked against the next clock reading; on failure the loop
returns `False` immediately.  Each summarize call consumes one event:
`raise` is caught by the inner `except` and only logged (no write); a falsy
return value writes the failure marker; a truthy return value writes the
summary and bumps the count. -/
def process_rows (clock : Nat → Nat) (events : Nat → RowEvent) :
    List (Str × Str) → List DRow → Nat → Nat → Nat → RowsOut
  | [], tbl, ci, ei, n => ⟨tbl, false, ci, ei, [], n⟩
  | (pk, u) :: rest, tbl, ci, ei, n =>
    if is_within_summarization_window (clock ci) = false then
      ⟨tbl, true, ci + 1, ei, [], n⟩
    else if u.isEmpty then
      process_rows clock events rest tbl (ci + 1) ei n
    else
      match events ei with
      | .raise =>
        let o := process_rows clock events rest tbl (ci + 1) (ei + 1) n
        ⟨o.tbl, o.halted, o.ci, o.ei, u :: o.calls, o.count⟩
      | .ret s =>
        if pyTruthy s then
          let o := process_rows clock events rest (set_summary tbl pk (s.getD []))
            (ci + 1) (ei + 1) (n + 1)
          ⟨o.tbl, o.halted, o.ci, o.ei, u :: o.calls, o.count⟩
        else
          let o := process_rows clock events rest (set_summary tbl pk failMarker)
            (ci + 1) (ei + 1) n
          ⟨o.tbl, o.halted, o.ci, o.ei, u :: o.calls, o.count⟩

/-- The three Python return values of `process_table`: `None` (no pending
rows), `False` (window halt or database error), `True` (finished normally). -/
inductive PyRet where
  | retNone : PyRet
  | retFalse : PyRet
  | retTrue : PyRet
deriving DecidableEq, Repr

/-- Observable result of `process_table`. -/
structure PtOut where
  tbl : List DRow
  ret : PyRet
  ci : Nat
  ei : Nat
  calls : List Str
deriving DecidableEq, Repr

/-- `process_table` (`summarize_articles.py` lines 58-135).  `select_err`
models the pending-rows SELECT raising `psycopg2.Error` (the only statement
of the outer `try` that reaches the outer `except`: per-row errors are
swallowed by the inner `except Exception`): the handler rolls back (no change
was made) and returns `False`.  An empty pending set returns `None`; a
window halt returns `False`; otherwise `True`. -/
def process_table (clock : Nat → Nat) (events : Nat → RowEvent) (select_err : Bool)
    (tbl : List DRow) (ci ei : Nat) : PtOut :=
  if select_err then ⟨tbl, .retFalse, ci, ei, []⟩
  else if (pendingOf tbl).isEmpty then ⟨tbl, .retNone, ci, ei, []⟩
  else
    let o := process_rows clock events (pendingOf tbl) tbl ci ei 0
    ⟨o.tbl, if o.halted then .retFalse else .retTrue, o.ci, o.ei, o.calls⟩

/-- One configured category for the driver: its table state and whether its
pending-rows SELECT raises. -/
structure Cat where
  tbl : List DRow
  select_err : Bool
deriving DecidableEq, Repr

/-- Observable result of `main`: final state of every category's table (in
configured order, whether processed or not), the number of categories on
which `process_table` was invoked, and all summarize-call URLs. -/
structure MainOut where
  tbls : List (List DRow)
  attempted : Nat
  calls : List Str
deriving DecidableEq, Repr

/-- The `for table_config in TABLES_TO_SUMMARIZE` loop of `main`
(`summarize_articles.py` lines 151-154): any falsy return from
`process_table` breaks the loop and leaves the remaining categories
untouched. -/
def run_categories (clock : Nat → Nat) (events : Nat → RowEvent) :
    List Cat → Nat → Nat → MainOut
  | [], _, _ => ⟨[], 0, []⟩
  | c :: cs, ci, ei =>
    let o := process_table clock events c.select_err c.tbl ci ei
    if o.ret = PyRet.retTrue then
      let rest := run_categories clock events cs o.ci o.ei
      ⟨o.tbl :: rest.tbls, rest.attempted + 1, o.calls ++ rest.calls⟩
    else ⟨o.tbl :: cs.map (·.tbl), 1, o.calls⟩

/-- `main` (`summarize_articles.py` lines 137-164): an initial window check
(consuming clock reading 0) exits before any category when it fails;
otherwise the category loop runs. -/
def main (clock : Nat → Nat) (events : Nat → RowEvent) (cats : List Cat) : MainOut :=
  if is_within_summarization_window (clock 0) = false then
    ⟨cats.map (·.tbl), 0, []⟩
  else
    run_categories clock events cats 1 0

/-! ### Concrete driver scenarios used by counterexamples and witnesses -/

/-- A clock stuck at 16:40:00 UTC, inside the summarization window. -/
def clock_in : Nat → Nat := fun _ => 60000

/-- A clock stuck at 02:46:40 UTC, outside the summarization window. -/
def clock_out : Nat → Nat := fun _ => 10000

/-- Every summarize call returns the summary `"ok"`. -/
def ev_ok : Nat → RowEvent := fun _ => RowEvent.ret (some "ok".toList)

/-- The first summarize call raises; later calls return `"ok"`. -/
def ev_c3 : Nat → RowEvent := fun n => if n = 0 then RowEvent.raise else RowEvent.ret (some "ok".toList)

/-- A category whose pending-rows SELECT raises a database error. -/
def cat_err : Cat := ⟨[⟨"p1".toList, some "u1".toList, none⟩], true⟩

/-- A healthy category with one unsummarized row. -/
def cat_pending : Cat := ⟨[⟨"p2".toList, some "u2".toList, none⟩], false⟩

/-- A two-row table: both rows unsummarized. -/
def tbl_c3 : List DRow :=
  [⟨"p1".toList, some "u1".toList, none⟩, ⟨"p2".toList, some "u2".toList, none⟩]

/-! ### Claims about the batch driver -/

/-- C1: whenever the wall-clock window check performed before a row fails,
no summarization call is issued for that row or any later row and the
category loop returns immediately with the table untouched; a window halt
(or any other falsy `process_table` return) skips all remaining categories;
and a driver run started entirely outside the window (the initial check
fails) processes zero rows and issues zero summarization calls. -/
theorem c1_window_halt (clock : Nat → Nat) (events : Nat → RowEvent) :
    (∀ pk u rest tbl ci ei n, is_within_summarization_window (clock ci) = false →
      process_rows clock events ((pk, u) :: rest) tbl ci ei n = ⟨tbl, true, ci + 1, ei, [], n⟩)
    ∧ (∀ tbl ci ei, (pendingOf tbl).isEmpty = false →
      (process_rows clock events (pendingOf tbl) tbl ci ei 0).halted = true →
      (process_table clock events false tbl ci ei).ret = PyRet.retFalse)
    ∧ (∀ c cs ci ei, (process_table clock events c.select_err c.tbl ci ei).ret ≠ PyRet.retTrue →
      run_categories clock events (c :: cs) ci ei =
        ⟨(process_table clock events c.select_err c.tbl ci ei).tbl :: cs.map (·.tbl), 1,
         (process_table clock events c.select_err c.tbl ci ei).calls⟩)
    ∧ (∀ cats, is_within_summarization_window (clock 0) = false →
      main clock events cats = ⟨cats.map (·.tbl), 0, []⟩) := by
  refine ⟨?_, ?_, ?_, ?_⟩
  · intro pk u rest tbl ci ei n h
    simp [process_rows, h]
  · intro tbl ci ei hne hh
    simp [process_table, hne, hh]
  · intro c cs ci ei h
    simp only [run_categories]
    rw [if_neg h]
  · intro cats h
    simp [main, h]

/-- C1 witness: with the clock outside the window, a run over one pending
category issues no calls, touches no rows and attempts no category. -/
theorem c1_window_halt_witness :
    is_within_summarization_window (clock_out 0) = false ∧
    main clock_out ev_ok [cat_pending] = ⟨[cat_pending.tbl], 0, []⟩ :=
  ⟨by decide, (c1_window_halt clock_out ev_ok).2.2.2 [cat_pending] (by decide)⟩

/-- C2 counterexample: with two configured categories where the first raises
a database error during its SELECT, the driver attempts only that first
category — the second, which still has a pending row, is never attempted and
no summarization call is made.  The claim states the driver would attempt
every subsequent category after a database error. -/
theorem c2_counterexample :
    main clock_in ev_ok [cat_err, cat_pending] =
      ⟨[cat_err.tbl, cat_pending.tbl], 1, []⟩
    ∧ (pendingOf cat_pending.tbl).isEmpty = false := by decide

/-- C2 amended: a category-level database error (the pending-rows SELECT
raising) leaves that category's table unchanged (the rollback has nothing to
undo) and returns the error result `False`; because the driver's main loop
breaks on any falsy return, the database error — exactly like a window-closed
halt — skips all remaining categories rather than attempting them. -/
theorem c2_amended (clock : Nat → Nat) (events : Nat → RowEvent) :
    (∀ tbl ci ei, process_table clock events true tbl ci ei = ⟨tbl, PyRet.retFalse, ci, ei, []⟩)
    ∧ (∀ tbl cs ci ei, run_categories clock events (⟨tbl, true⟩ :: cs) ci ei =
      ⟨tbl :: cs.map (·.tbl), 1, []⟩) := by
  constructor
  · intro tbl ci ei
    simp [process_table]
  · intro tbl cs ci ei
    simp [run_categories, process_table]

/-- C3 counterexample: two pending rows; summarizing the first row raises an
exception.  The driver continues with the second row, but the first row's
summary column is left `NULL` — the `'[SUMMARY_FAILED]'` marker is not
recorded, so the row would be retried on the next run.  The claim states the
failure marker is recorded on the exception path. -/
theorem c3_counterexample :
    main clock_in ev_c3 [⟨tbl_c3, false⟩] =
      ⟨[[⟨"p1".toList, some "u1".toList, none⟩,
         ⟨"p2".toList, some "u2".toList, some "ok".toList⟩]],
       1, ["u1".toList, "u2".toList]⟩
    ∧ (none : Option Str) ≠ some failMarker := by decide

/-- C3 amended: if the summarize call for a row raises, the exception is
caught and the driver continues with the next row of the same category, but
no failure marker is written — the row's summary column is left unchanged,
so the row remains eligible for retry; the failure marker is written only
when the summarize call returns without raising and its result is falsy (no
summary produced). -/
theorem c3_amended (clock : Nat → Nat) (events : Nat → RowEvent) (pk u : Str)
    (rest : List (Str × Str)) (tbl : List DRow) (ci ei n : Nat)
    (hw : is_within_summarization_window (clock ci) = true) (hu : u.isEmpty = false) :
    (events ei = RowEvent.raise →
      process_rows clock events ((pk, u) :: rest) tbl ci ei n =
        (let o := process_rows clock events rest tbl (ci + 1) (ei + 1) n
         ⟨o.tbl, o.halted, o.ci, o.ei, u :: o.calls, o.count⟩))
    ∧ (∀ s, events ei = RowEvent.ret s → pyTruthy s = false →
      process_rows clock events ((pk, u) :: rest) tbl ci ei n =
        (let o := process_rows clock events rest (set_summary tbl pk failMarker)
           (ci + 1) (ei + 1) n
         ⟨o.tbl, o.halted, o.ci, o.ei, u :: o.calls, o.count⟩)) := by
  constructor
  · intro hev
    simp [process_rows, hw, hu, hev]
  · intro s hev hs
    simp [process_rows, hw, hu, hev, hs]

/-- C3 amended witness: concrete instance — the first call raises and the
row list continues unchanged, with the call recorded. -/
theorem c3_amended_witness :
    is_within_summarization_window (clock_in 0) = true ∧ ("u1".toList : Str).isEmpty = false ∧
    process_rows clock_in ev_c3 [("p1".toList, "u1".toList)] tbl_c3 0 0 0 =
      (let o := process_rows clock_in ev_c3 [] tbl_c3 1 1 0
       ⟨o.tbl, o.halted, o.ci, o.ei, "u1".toList :: o.calls, o.count⟩) :=
  ⟨by decide, by decide,
    (c3_amended clock_in ev_c3 "p1".toList "u1".toList [] tbl_c3 0 0 0
      (by decide) (by decide)).1 (by decide)⟩

/-- C10: a category whose pending-rows query returns zero qualifying rows
makes `process_table` return `None` — a falsy value distinct from the `True`
of normal completion — and the driver's main loop therefore stops, leaving
every subsequent category unattempted. -/
theorem c10_empty_halts (clock : Nat → Nat) (events : Nat → RowEvent) :
    (∀ tbl ci ei, (pendingOf tbl).isEmpty = true →
      process_table clock events false tbl ci ei = ⟨tbl, PyRet.retNone, ci, ei, []⟩)
    ∧ PyRet.retNone ≠ PyRet.retTrue
    ∧ (∀ tbl cs ci ei, (pendingOf tbl).isEmpty = true →
      run_categories clock events (⟨tbl, false⟩ :: cs) ci ei =
        ⟨tbl :: cs.map (·.tbl), 1, []⟩) := by
  refine ⟨?_, by decide, ?_⟩
  · intro tbl ci ei h
    simp [process_table, h]
  · intro tbl cs ci ei h
    simp [run_categories, process_table, h]

/-- C10 witness: an already-summarized table yields `None` and halts the
loop before the healthy pending category that follows. -/
theorem c10_empty_halts_witness :
    (pendingOf [⟨"p0".toList, some "u0".toList, some "done".toList⟩]).isEmpty = true ∧
    run_categories clock_in ev_ok
      [⟨[⟨"p0".toList, some "u0".toList, some "done".toList⟩], false⟩, cat_pending] 1 0 =
      ⟨[⟨"p0".toList, some "u0".toList, some "done".toList⟩] :: [cat_pending].map (·.tbl), 1, []⟩ :=
  ⟨by decide,
    (c10_empty_halts clock_in ev_ok).2.2
      [⟨"p0".toList, some "u0".toList, some "done".toList⟩] [cat_pending] 1 0 (by decide)⟩

/-! ### `database.py`: the deduplicating store writer -/

section StoreWriter

variable {α β : Type}

/-- `insert_data` (`database.py` lines 239-262): apply the category parser to
each entry, skip rejects (`None`), and execute the category insert statement
for each parsed tuple.  Every configured statement (`config.py`,
`FEEDS_TO_PROCESS`) ends in `ON CONFLICT (guid) DO NOTHING`, so a tuple whose
guid already exists in the store is skipped silently with `rowcount = 0`;
otherwise the row is appended and counted.  `g` extracts the guid from a
parsed tuple (its first column), `parser_func` is the category parser.
Arguments: entries, current store contents, running `new_entries_count`. -/
def insert_data (g : α → Str) (parser_func : β → Option α) :
    List β → List α → Nat → List α × Nat
  | [], db, n => (db, n)
  | e :: es, db, n =>
    match parser_func e with
    | none => insert_data g parser_func es db n
    | some t =>
      if g t ∈ db.map g then insert_data g parser_func es db n
      else insert_data g parser_func es (db ++ [t]) (n + 1)

theorem insert_data_extends (g : α → Str) (p : β → Option α) :
    ∀ (es : List β) (db : List α) (n : Nat),
      ∃ ext, (insert_data g p es db n).1 = db ++ ext := by
  intro es
  induction es with
  | nil => exact fun db n => ⟨[], by simp [insert_data]⟩
  | cons e es ih =>
    intro db n
    cases hp : p e with
    | none => simpa [insert_data, hp] using ih db n
    | some t =>
      by_cases hm : g t ∈ db.map g
      · simpa [insert_data, hp, hm] using ih db n
      · obtain ⟨ext, hext⟩ := ih (db ++ [t]) (n + 1)
        exact ⟨t :: ext, by simp [insert_data, hp, hm, hext]⟩

theorem insert_data_mem_mono (g : α → Str) (p : β → Option α)
    (es : List β) (db : List α) (n : Nat) (x : Str) (hx : x ∈ db.map g) :
    x ∈ ((insert_data g p es db n).1).map g := by
  obtain ⟨ext, hext⟩ := insert_data_extends g p es db n
  rw [hext, List.map_append]
  exact List.mem_append_left _ hx

theorem insert_data_covers (g : α → Str) (p : β → Option α) :
    ∀ (es : List β) (db : List α) (n : Nat) (e : β) (t : α),
      e ∈ es → p e = some t → g t ∈ ((insert_data g p es db n).1).map g := by
  intro es
  induction es with
  | nil => intro db n e t he; exact absurd he (List.not_mem_nil e)
  | cons a as ih =>
    intro db n e t he hp
    rcases List.mem_cons.mp he with rfl | hmem
    · by_cases hm : g t ∈ db.map g
      · simpa [insert_data, hp, hm] using insert_data_mem_mono g p as db n (g t) hm
      · have hmem2 : g t ∈ (db ++ [t]).map g := by simp
        simpa [insert_data, hp, hm] using
          insert_data_mem_mono g p as (db ++ [t]) (n + 1) (g t) hmem2
    · cases hq : p a with
      | none => simpa [insert_data, hq] using ih db n e t hmem hp
      | some t' =>
        by_cases hm : g t' ∈ db.map g
        · simpa [insert_data, hq, hm] using ih db n e t hmem hp
        · simpa [insert_data, hq, hm] using ih (db ++ [t']) (n + 1) e t hmem hp

theorem insert_data_nodup (g : α → Str) (p : β → Option α) :
    ∀ (es : List β) (db : List α) (n : Nat),
      (db.map g).Nodup → (((insert_data g p es db n).1).map g).Nodup := by
  intro es
  induction es with
  | nil => intro db n h; simpa [insert_data] using h
  | cons e es ih =>
    intro db n h
    cases hp : p e with
    | none => simpa [insert_data, hp] using ih db n h
    | some t =>
      by_cases hm : g t ∈ db.map g
      · simpa [insert_data, hp, hm] using ih db n h
      · have h' : ((db ++ [t]).map g).Nodup := by
          simp only [List.map_append, List.map_cons, List.map_nil]
          simp [List.nodup_append, h, hm]
        simpa [insert_data, hp, hm] using ih (db ++ [t]) (n + 1) h'

theorem insert_data_noop (g : α → Str) (p : β → Option α) :
    ∀ (es : List β) (db : List α) (n : Nat),
      (∀ e ∈ es, ∀ t, p e = some t → g t ∈ db.map g) →
      insert_data g p es db n = (db, n) := by
  intro es
  induction es with
  | nil => intro db n _; simp [insert_data]
  | cons e es ih =>
    intro db n h
    cases hp : p e with
    | none =>
      simpa [insert_data, hp] using ih db n (fun a ha t ht => h a (List.mem_cons_of_mem e ha) t ht)
    | some t =>
      have hm : g t ∈ db.map g := h e (List.mem_cons_self e es) t hp
      simpa [insert_data, hp, hm] using
        ih db n (fun a ha t' ht' => h a (List.mem_cons_of_mem e ha) t' ht')

/-- C4: starting from a store whose guids are distinct, running the store
writer twice over the identical entry set leaves the store exactly as the
first run left it — the second run inserts nothing, every insertion is
skipped as a no-op and is reported as zero new records — the store keeps at
most one row per guid, and the pre-existing rows are never overwritten (the
first run only appends). -/
theorem c4_store_idempotent (g : α → Str) (p : β → Option α)
    (entries : List β) (db : List α) (h : (db.map g).Nodup) :
    insert_data g p entries (insert_data g p entries db 0).1 0 =
      ((insert_data g p entries db 0).1, 0)
    ∧ (((insert_data g p entries db 0).1).map g).Nodup
    ∧ ∃ ext, (insert_data g p entries db 0).1 = db ++ ext := by
  refine ⟨?_, insert_data_nodup g p entries db 0 h, insert_data_extends g p entries db 0⟩
  exact insert_data_noop g p entries _ 0
    (fun e he t ht => insert_data_covers g p entries db 0 e t he ht)

end StoreWriter

/-- C4 witness: inserting the single-entry set `["a"]` twice into an empty
store (identity parser, identity guid) inserts once, reports zero new
records on the second run, and never duplicates the row. -/
theorem c4_store_idempotent_witness :
    ((([] : List Str).map id).Nodup) ∧
    (insert_data id some ["a".toList] (insert_data id some ["a".toList] ([] : List Str) 0).1 0 =
      ((insert_data id some ["a".toList] ([] : List Str) 0).1, 0)
    ∧ (((insert_data id some ["a".toList] ([] : List Str) 0).1).map id).Nodup
    ∧ ∃ ext, (insert_data id some ["a".toList] ([] : List Str) 0).1 = [] ++ ext) :=
  ⟨by simp, c4_store_idempotent id some ["a".toList] [] (by simp)⟩

/-! ### `ai_summarizer.py`: the chunked summarizer

`api : Str → Option Str` is the wrapped DeepSeek call as performed inside
`AISummarizer._summarize_text`'s `try` block: `none` models the paths on
which the wrapper returns `None` (an exception, or absent/empty response
content); `some s` models the returned `summary.strip()` value.  Each
`summarize_text` result carries a trace: the list of texts actually sent to
the API (empty when the early `if not text: return None` fires). -/

/-- `AISummarizer.MAX_CHUNK_SIZE` (`ai_summarizer.py` line 29). -/
def MAX_CHUNK_SIZE : Nat := 100000

/-- The slicing loop `[text[i : i + m] for i in range(0, len(text), m)]` of
`_split_text_into_chunks` (`ai_summarizer.py` lines 119-122): each step
emits `text[:m]` and continues with `text[m:]`.  For `m ≥ 1`,
`rest.drop (m - 1) = (c :: rest).drop m`; writing the recursive argument
that way makes the definition total (Python raises on a zero step, which
never happens: the configured chunk size is positive). -/
def chunks_of (m : Nat) (t : Str) : List Str :=
  match t with
  | [] => []
  | c :: rest => ((c :: rest).take m) :: chunks_of m (rest.drop (m - 1))
termination_by t.length
decreasing_by
  simp only [List.length_drop, List.length_cons]
  omega

/-- `AISummarizer._split_text_into_chunks` (`ai_summarizer.py` lines 114-124). -/
def split_text_into_chunks (m : Nat) (t : Str) : List Str :=
  if t.length ≤ m then [t] else chunks_of m t

/-- `AISummarizer._summarize_text` (`ai_summarizer.py` lines 126-158) with
its call trace: empty text short-circuits to `None` without calling the
API; otherwise one API call is issued. -/
def summarize_text (api : Str → Option Str) (t : Str) : Option Str × List Str :=
  if t = [] then (none, []) else (api t, [t])

/-- The comprehension `[s for s in chunk_summaries if s]`
(`ai_summarizer.py` line 185): keep results that are neither `None` nor
empty, in order. -/
def valid_summaries (rs : List (Option Str)) : List Str :=
  (rs.filterMap id).filter (fun s => !s.isEmpty)

/-- The blank-line separator `"\n\n"` of `"\n\n".join(valid_summaries)`. -/
def nl2 : Str := "\n\n".toList

/-- `AISummarizer.summarize` (`ai_summarizer.py` lines 160-192), taking the
result of `_get_text_from_url` as input (`none` models a fetch failure, the
empty string a fruitless extraction) and returning the summary together
with the trace of all texts sent to the API. -/
def summarize (api : Str → Option Str) (m : Nat) (full_text : Option Str) :
    Option Str × List Str :=
  match full_text with
  | none => (none, [])
  | some t =>
    if t = [] then (none, [])
    else if (split_text_into_chunks m t).length = 1 then
      summarize_text api (split_text_into_chunks m t).headI
    else if valid_summaries (((split_text_into_chunks m t).map (summarize_text api)).map
        (fun r => r.1)) = [] then
      (none, (((split_text_into_chunks m t).map (summarize_text api)).map (fun r => r.2)).flatten)
    else
      ((summarize_text api (List.intercalate nl2 (valid_summaries
          (((split_text_into_chunks m t).map (summarize_text api)).map (fun r => r.1))))).1,
       (((split_text_into_chunks m t).map (summarize_text api)).map (fun r => r.2)).flatten ++
         (summarize_text api (List.intercalate nl2 (valid_summaries
           (((split_text_into_chunks m t).map (summarize_text api)).map (fun r => r.1))))).2)

theorem chunks_of_join (m : Nat) (hm : 0 < m) (t : Str) : (chunks_of m t).flatten = t := by
  generalize hn : t.length = n
  induction n using Nat.strong_induction_on generalizing t with
  | _ n ih =>
    match t with
    | [] => simp [chunks_of]
    | c :: rest =>
      rw [chunks_of]
      have hlt : (rest.drop (m - 1)).length < n := by
        subst hn; simp only [List.length_drop, List.length_cons]; omega
      have hdrop : (c :: rest).drop m = rest.drop (m - 1) := by
        cases m with
        | zero => omega
        | succ k => simp [List.drop_succ_cons]
      simp only [List.flatten_cons]
      rw [ih _ hlt _ rfl, ← hdrop, List.take_append_drop]

theorem chunks_of_length (m : Nat) (hm : 0 < m) (t : Str) (ht : t ≠ []) :
    (chunks_of m t).length = (t.length + m - 1) / m := by
  generalize hn : t.length = n
  induction n using Nat.strong_induction_on generalizing t with
  | _ n ih =>
    match t with
    | [] => exact absurd rfl ht
    | c :: rest =>
      subst hn
      rw [chunks_of]
      by_cases hsmall : (c :: rest).length ≤ m
      · have hdrop : rest.drop (m - 1) = [] := by
          apply List.drop_eq_nil_of_le
          simp only [List.length_cons] at hsmall; omega
        rw [hdrop]
        simp only [chunks_of, List.length_cons, List.length_nil, Nat.zero_add]
        have h1 : 1 * m ≤ rest.length + 1 + m - 1 := by omega
        have h2 : rest.length + 1 + m - 1 < (1 + 1) * m := by
          simp only [List.length_cons] at hsmall; omega
        exact (Nat.div_eq_of_lt_le h1 h2).symm
      · push_neg at hsmall
        simp only [List.length_cons] at hsmall
        have hne : rest.drop (m - 1) ≠ [] := by
          intro h
          have hlen := congrArg List.length h
          simp only [List.length_drop, List.length_nil] at hlen
          omega
        have hlt : (rest.drop (m - 1)).length < (c :: rest).length := by
          simp only [List.length_drop, List.length_cons]; omega
        simp only [List.length_cons]
        rw [ih _ hlt _ hne rfl]
        simp only [List.length_drop]
        have e1 : rest.length - (m - 1) + m - 1 = rest.length := by omega
        have e2 : rest.length + 1 + m - 1 = rest.length + m := by omega
        rw [e1, e2, Nat.add_div_right _ hm]

theorem chunks_of_mem (m : Nat) (hm : 0 < m) (t : Str) :
    ∀ c ∈ chunks_of m t, c ≠ [] ∧ c.length ≤ m := by
  generalize hn : t.length = n
  induction n using Nat.strong_induction_on generalizing t with
  | _ n ih =>
    match t with
    | [] => intro c hc; simp [chunks_of] at hc
    | a :: rest =>
      intro c hc
      rw [chunks_of] at hc
      rcases List.mem_cons.mp hc with rfl | hc'
      · constructor
        · cases m with
          | zero => omega
          | succ k => simp [List.take_succ_cons]
        · exact List.length_take_le m (a :: rest)
      · have hlt : (rest.drop (m - 1)).length < n := by
          subst hn; simp only [List.length_drop, List.length_cons]; omega
        exact ih _ hlt _ rfl c hc'

theorem chunks_of_dropLast_length (m : Nat) (hm : 0 < m) (t : Str) :
    ∀ c ∈ (chunks_of m t).dropLast, c.length = m := by
  generalize hn : t.length = n
  induction n using Nat.strong_induction_on generalizing t with
  | _ n ih =>
    match t with
    | [] => intro c hc; simp [chunks_of] at hc
    | a :: rest =>
      intro c hc
      rw [chunks_of] at hc
      by_cases htail : chunks_of m (rest.drop (m - 1)) = []
      · rw [htail] at hc
        simp at hc
      · rw [List.dropLast_cons_of_ne_nil htail] at hc
        have hlt : (rest.drop (m - 1)).length < n := by
          subst hn; simp only [List.length_drop, List.length_cons]; omega
        rcases List.mem_cons.mp hc with rfl | hc'
        · have hne : rest.drop (m - 1) ≠ [] := by
            intro h; exact htail (by rw [h]; simp [chunks_of])
          have hlong : m < (a :: rest).length := by
            have := congrArg List.length (rfl : rest.drop (m - 1) = rest.drop (m - 1))
            simp only [List.length_cons]
            by_contra hle
            push_neg at hle
            exact hne (List.drop_eq_nil_of_le (by omega))
          rw [List.length_take]
          omega
        · exact ih _ hlt _ rfl c hc'

theorem flatten_map_singleton (l : List Str) : (l.map (fun c => [c])).flatten = l := by
  induction l with
  | nil => simp
  | cons a l ih => simp [ih]

theorem valid_summaries_mem_ne_nil (rs : List (Option Str)) :
    ∀ s ∈ valid_summaries rs, s ≠ [] := by
  intro s hs heq
  subst heq
  have h := (List.mem_filter.mp hs).2
  simp at h

theorem intercalate_ne_nil (sep : Str) (l : List Str) (hl : l ≠ [])
    (hmem : ∀ s ∈ l, s ≠ []) : List.intercalate sep l ≠ [] := by
  match l with
  | [] => exact absurd rfl hl
  | x :: xs =>
    have hx : x ≠ [] := hmem x (List.mem_cons_self x xs)
    match xs with
    | [] => simpa [List.intercalate] using hx
    | y :: ys =>
      simp only [List.intercalate, List.intersperse, List.flatten_cons]
      simp [List.append_eq_nil, hx]

theorem summarize_single (api : Str → Option Str) (m : Nat) (t : Str) (ht : t ≠ [])
    (hl : t.length ≤ m) : summarize api m (some t) = (api t, [t]) := by
  simp [summarize, split_text_into_chunks, summarize_text, ht, hl]

theorem summarize_multi (api : Str → Option Str) (m : Nat) (hm : 0 < m) (t : Str)
    (hgt : m < t.length) :
    summarize api m (some t) =
      (if valid_summaries ((split_text_into_chunks m t).map api) = []
       then ((none : Option Str), split_text_into_chunks m t)
       else (api (List.intercalate nl2 (valid_summaries ((split_text_into_chunks m t).map api))),
             split_text_into_chunks m t ++
               [List.intercalate nl2 (valid_summaries
                 ((split_text_into_chunks m t).map api))])) := by
  have htne : t ≠ [] := by
    intro h; rw [h] at hgt; simp at hgt
  have hnle : ¬ t.length ≤ m := by omega
  have hsplit : split_text_into_chunks m t = chunks_of m t := by
    simp [split_text_into_chunks, hnle]
  have hchne : ∀ c ∈ split_text_into_chunks m t, c ≠ [] := by
    intro c hc; rw [hsplit] at hc; exact (chunks_of_mem m hm t c hc).1
  have hlen2 : 2 ≤ (split_text_into_chunks m t).length := by
    rw [hsplit, chunks_of_length m hm t htne]
    have h2 : 2 * m ≤ t.length + m - 1 := by omega
    exact (Nat.le_div_iff_mul_le hm).mpr h2
  have hne1 : ¬ (split_text_into_chunks m t).length = 1 := by omega
  have hfirst : ((split_text_into_chunks m t).map (summarize_text api)).map (fun r => r.1) =
      (split_text_into_chunks m t).map api := by
    rw [List.map_map]
    exact List.map_congr_left (fun c hc => by simp [summarize_text, hchne c hc])
  have htrace : (((split_text_into_chunks m t).map (summarize_text api)).map
      (fun r => r.2)).flatten = split_text_into_chunks m t := by
    rw [List.map_map]
    have hmap : (split_text_into_chunks m t).map ((fun r => r.2) ∘ summarize_text api) =
        (split_text_into_chunks m t).map (fun c => [c]) :=
      List.map_congr_left (fun c hc => by simp [summarize_text, hchne c hc])
    rw [hmap]
    exact flatten_map_singleton _
  by_cases hv : valid_summaries ((split_text_into_chunks m t).map api) = []
  · simp only [summarize, hfirst, htrace]
    rw [if_neg htne, if_neg hne1, if_pos hv, if_pos hv]
  · have hcomb : List.intercalate nl2
        (valid_summaries ((split_text_into_chunks m t).map api)) ≠ [] :=
      intercalate_ne_nil nl2 _ hv (valid_summaries_mem_ne_nil _)
    simp only [summarize, hfirst, htrace]
    rw [if_neg htne, if_neg hne1, if_neg hv, if_neg hv]
    simp [summarize_text, hcomb]

/-- C5 counterexample: the empty extracted text has length `0 ≤
MAX_CHUNK_SIZE`, yet the summarizer issues zero summarization calls for it
(the `if not full_text` guard short-circuits), not exactly one as the claim
states for every extracted text of length ≤ the limit. -/
theorem c5_counterexample :
    ([] : Str).length ≤ MAX_CHUNK_SIZE ∧
    (summarize (fun s => some s) MAX_CHUNK_SIZE (some ([] : Str))).2.length = 0 := by
  exact ⟨by decide, rfl⟩

/-- C5 amended: for every NONEMPTY extracted text — the empty extraction is
treated as "no text" and triggers zero calls — with text length ≤ the chunk
limit the summarizer issues exactly one summarization call and returns its
result directly; with length > the limit it splits the text into exactly
`⌈length/limit⌉` consecutive chunks that concatenate back to the original
text (all full-size except possibly the last, none empty, none over the
limit), issues one call per chunk, and issues exactly one additional reduce
call when at least one chunk call succeeds (produces a nonempty summary). -/
theorem c5_amended (api : Str → Option Str) (m : Nat) (hm : 0 < m) (t : Str) (ht : t ≠ []) :
    (t.length ≤ m → summarize api m (some t) = (api t, [t]))
    ∧ (m < t.length →
        (split_text_into_chunks m t).length = (t.length + m - 1) / m
        ∧ (split_text_into_chunks m t).flatten = t
        ∧ (∀ c ∈ (split_text_into_chunks m t).dropLast, c.length = m)
        ∧ (∀ c ∈ split_text_into_chunks m t, c ≠ [] ∧ c.length ≤ m)
        ∧ (summarize api m (some t)).2 =
            split_text_into_chunks m t ++
              (if valid_summaries ((split_text_into_chunks m t).map api) = [] then []
               else [List.intercalate nl2
                 (valid_summaries ((split_text_into_chunks m t).map api))])) := by
  constructor
  · exact fun hl => summarize_single api m t ht hl
  · intro hgt
    have hnle : ¬ t.length ≤ m := by omega
    have hsplit : split_text_into_chunks m t = chunks_of m t := by
      simp [split_text_into_chunks, hnle]
    refine ⟨?_, ?_, ?_, ?_, ?_⟩
    · rw [hsplit]; exact chunks_of_length m hm t ht
    · rw [hsplit]; exact chunks_of_join m hm t
    · rw [hsplit]; exact chunks_of_dropLast_length m hm t
    · rw [hsplit]; exact chunks_of_mem m hm t
    · rw [summarize_multi api m hm t hgt]
      by_cases hv : valid_summaries ((split_text_into_chunks m t).map api) = []
      · rw [if_pos hv, if_pos hv, List.append_nil]
      · rw [if_neg hv, if_neg hv]

/-- C5 amended witness: a 3-character text with chunk limit 2 yields the
chunk trace plus the conditional reduce call. -/
theorem c5_amended_witness :
    2 < ("abc".toList : Str).length ∧
    (summarize (fun s => some s) 2 (some "abc".toList)).2 =
      split_text_into_chunks 2 "abc".toList ++
        (if valid_summaries ((split_text_into_chunks 2 "abc".toList).map (fun s => some s)) = []
         then []
         else [List.intercalate nl2
           (valid_summaries ((split_text_into_chunks 2 "abc".toList).map (fun s => some s)))]) :=
  ⟨by decide,
    ((c5_amended (fun s => some s) 2 (by decide) "abc".toList (by decide)).2 (by decide)).2.2.2.2⟩

/-- C6: for a multi-chunk document, if every per-chunk summarization call
fails — yields no usable summary: the wrapped call returns `None` or an
empty string, which the spec's taxonomy (§4.5, §7) classifies as a call
failure ("network/API error, empty response") — the document-level result is
"no summary" and no reduce call is issued (the trace is exactly the chunk
calls); otherwise the successful (nonempty) chunk summaries are joined in
order with the blank-line separator and exactly one final reduce call is
issued over that joined text, whose result is returned. -/
theorem c6_reduce_policy (api : Str → Option Str) (m : Nat) (hm : 0 < m) (t : Str)
    (hgt : m < t.length) :
    (valid_summaries ((split_text_into_chunks m t).map api) = [] →
      summarize api m (some t) = (none, split_text_into_chunks m t))
    ∧ (valid_summaries ((split_text_into_chunks m t).map api) ≠ [] →
      summarize api m (some t) =
        (api (List.intercalate nl2 (valid_summaries ((split_text_into_chunks m t).map api))),
         split_text_into_chunks m t ++
           [List.intercalate nl2 (valid_summaries ((split_text_into_chunks m t).map api))])) := by
  constructor
  · intro hv; rw [summarize_multi api m hm t hgt, if_pos hv]
  · intro hv; rw [summarize_multi api m hm t hgt, if_neg hv]

/-- C6 witness: with an API that fails every call, a 3-character text at
chunk limit 2 produces "no summary" with no reduce call. -/
theorem c6_reduce_policy_witness :
    valid_summaries ((split_text_into_chunks 2 "abc".toList).map
      (fun _ => (none : Option Str))) = [] ∧
    summarize (fun _ => (none : Option Str)) 2 (some "abc".toList) =
      (none, split_text_into_chunks 2 "abc".toList) :=
  ⟨by simp [valid_summaries, List.filterMap_eq_nil_iff],
    (c6_reduce_policy (fun _ => none) 2 (by decide) "abc".toList (by decide)).1
      (by simp [valid_summaries, List.filterMap_eq_nil_iff])⟩

/-! ### `parsers.py`: the date/field normalizer

`datetime.strptime` is modelled for the format directives the repository's
format lists use (`%d %b %y %Y %H %M %S`, literals, whitespace), following
Python's `_strptime`: each directive is the corresponding `TimeRE` regex
fragment, the whole input must be consumed, and the resulting field values
go through the `datetime` constructor's day-of-month validation. -/

/-- The `datetime` value produced by `datetime.strptime` (the fields
exercised by the repository's formats; `strptime` defaults the date to
1900-01-01 and the time to midnight). -/
structure PyDateTime where
  year : Nat
  month : Nat
  day : Nat
  hour : Nat
  minute : Nat
  second : Nat
deriving DecidableEq, Repr

/-- The defaults `_strptime` starts from. -/
def pyDateTimeDefault : PyDateTime := ⟨1900, 1, 1, 0, 0, 0⟩

/-- Numeric value of a decimal digit character. -/
def digitVal (c : Char) : Nat := c.toNat - 48

/-- Parse a 1-2 digit field the way Python's `_strptime` regexes do (e.g.
`%d` is `3[01]|[12]\d|0[1-9]|[1-9]`): two digits when the two-digit value is
in range, falling back to one digit. -/
def parse2or1 (lo hi : Nat) : Str → Option (Nat × Str)
  | c1 :: c2 :: rest =>
    if c1.isDigit && c2.isDigit then
      if lo ≤ digitVal c1 * 10 + digitVal c2 ∧ digitVal c1 * 10 + digitVal c2 ≤ hi then
        some (digitVal c1 * 10 + digitVal c2, rest)
      else if lo ≤ digitVal c1 ∧ digitVal c1 ≤ hi then some (digitVal c1, c2 :: rest)
      else none
    else if c1.isDigit then
      if lo ≤ digitVal c1 ∧ digitVal c1 ≤ hi then some (digitVal c1, c2 :: rest) else none
    else none
  | [c1] =>
    if c1.isDigit then
      if lo ≤ digitVal c1 ∧ digitVal c1 ≤ hi then some (digitVal c1, []) else none
    else none
  | [] => none

/-- `%Y`: exactly four digits. -/
def parse4 : Str → Option (Nat × Str)
  | a :: b :: c :: d :: rest =>
    if a.isDigit && b.isDigit && c.isDigit && d.isDigit then
      some (digitVal a * 1000 + digitVal b * 100 + digitVal c * 10 + digitVal d, rest)
    else none
  | _ => none

/-- `%y`: exactly two digits; 0-68 map into the 2000s, 69-99 into the 1900s. -/
def parse_y2 : Str → Option (Nat × Str)
  | a :: b :: rest =>
    if a.isDigit && b.isDigit then
      some ((if digitVal a * 10 + digitVal b ≤ 68 then 2000 + digitVal a * 10 + digitVal b
             else 1900 + digitVal a * 10 + digitVal b), rest)
    else none
  | _ => none

/-- Month abbreviations recognized by `%b` (C locale), lowercase. -/
def monthAbbrevs : List Str :=
  ["jan", "feb", "mar", "apr", "may", "jun", "jul", "aug", "sep", "oct", "nov", "dec"].map
    String.toList

/-- `%b`: a three-letter month abbreviation, case-insensitive. -/
def parseMonthAbbrev : Str → Option (Nat × Str)
  | a :: b :: c :: rest =>
    match monthAbbrevs.findIdx? (fun w => w == [a.toLower, b.toLower, c.toLower]) with
    | some i => some (i + 1, rest)
    | none => none
  | _ => none

/-- Run a format over the input accumulating parsed fields.  Literal
whitespace in the format matches one or more input whitespace characters,
any other literal matches itself, and the whole input must be consumed.
Directives outside those used by the repository's format lists fail. -/
def strptime_run : Str → Str → PyDateTime → Option PyDateTime
  | [], input, acc => if input = [] then some acc else none
  | ['%'], _, _ => none
  | '%' :: dir :: frest, input, acc =>
    if dir = 'd' then
      match parse2or1 1 31 input with
      | some (v, rest) =>
        strptime_run frest rest ⟨acc.year, acc.month, v, acc.hour, acc.minute, acc.second⟩
      | none => none
    else if dir = 'H' then
      match parse2or1 0 23 input with
      | some (v, rest) =>
        strptime_run frest rest ⟨acc.year, acc.month, acc.day, v, acc.minute, acc.second⟩
      | none => none
    else if dir = 'M' then
      match parse2or1 0 59 input with
      | some (v, rest) =>
        strptime_run frest rest ⟨acc.year, acc.month, acc.day, acc.hour, v, acc.second⟩
      | none => none
    else if dir = 'S' then
      match parse2or1 0 59 input with
      | some (v, rest) =>
        strptime_run frest rest ⟨acc.year, acc.month, acc.day, acc.hour, acc.minute, v⟩
      | none => none
    else if dir = 'Y' then
      match parse4 input with
      | some (v, rest) =>
        strptime_run frest rest ⟨v, acc.month, acc.day, acc.hour, acc.minute, acc.second⟩
      | none => none
    else if dir = 'y' then
      match parse_y2 input with
      | some (v, rest) =>
        strptime_run frest rest ⟨v, acc.month, acc.day, acc.hour, acc.minute, acc.second⟩
      | none => none
    else if dir = 'b' then
      match parseMonthAbbrev input with
      | some (v, rest) =>
        strptime_run frest rest ⟨acc.year, v, acc.day, acc.hour, acc.minute, acc.second⟩
      | none => none
    else none
  | c :: frest, input, acc =>
    if c.isWhitespace then
      match input with
      | i :: irest =>
        if i.isWhitespace then strptime_run frest (irest.dropWhile Char.isWhitespace) acc
        else none
      | [] => none
    else
      match input with
      | i :: irest => if i = c then strptime_run frest irest acc else none
      | [] => none

/-- Days of the given month, as validated by the `datetime` constructor. -/
def daysInMonth (y m : Nat) : Nat :=
  if m = 2 then (if y % 4 = 0 ∧ (y % 100 ≠ 0 ∨ y % 400 = 0) then 29 else 28)
  else if m = 4 ∨ m = 6 ∨ m = 9 ∨ m = 11 then 30
  else 31

/-- `datetime.strptime(input, fmt)`: run the format, then apply the
`datetime` constructor's day-of-month validation (`"31-Feb-…"` raises, i.e.
yields `none`). -/
def strptime (input fmt : Str) : Option PyDateTime :=
  match strptime_run fmt input pyDateTimeDefault with
  | some d => if d.day ≤ daysInMonth d.year d.month then some d else none
  | none => none

/-- The format loop of `_parse_datetime` (`parsers.py` lines 40-45): first
successful format wins, later formats are not tried. -/
def try_formats (s : Str) : List Str → Option PyDateTime
  | [] => none
  | f :: fs =>
    match strptime s f with
    | some d => some d
    | none => try_formats s fs

/-- `_parse_datetime` (`parsers.py` lines 36-45): absent or empty input is
"no match"; otherwise the formats are tried in order. -/
def parse_datetime (date_str : Option Str) (formats : List Str) : Option PyDateTime :=
  match date_str with
  | none => none
  | some s => if s = [] then none else try_formats s formats

/-- C7: for every candidate string and ordered format list, the normalizer
returns the parse under the first format that parses the string (a string
matching the Nth format and no earlier one parses to that value); empty or
absent input yields "no match"; and a string matching no format yields "no
match" — the function is total, so no exception can escape. -/
theorem c7_first_format (s : Str) (pre post : List Str) (f : Str) (d : PyDateTime)
    (hs : s ≠ []) (hpre : ∀ g ∈ pre, strptime s g = none) (hf : strptime s f = some d) :
    parse_datetime (some s) (pre ++ f :: post) = some d
    ∧ parse_datetime none (pre ++ f :: post) = none
    ∧ parse_datetime (some []) (pre ++ f :: post) = none
    ∧ ∀ s' fmts, (∀ g ∈ fmts, strptime s' g = none) →
        parse_datetime (some s') fmts = none := by
  refine ⟨?_, rfl, by simp [parse_datetime], ?_⟩
  · simp only [parse_datetime, if_neg hs]
    induction pre with
    | nil => simp [try_formats, hf]
    | cons g gs ih =>
      have hg : strptime s g = none := hpre g (List.mem_cons_self g gs)
      simp only [List.cons_append, try_formats, hg]
      exact ih (fun g' hg' => hpre g' (List.mem_cons_of_mem g hg'))
  · intro s' fmts hall
    by_cases hs' : s' = []
    · simp [parse_datetime, hs']
    · simp only [parse_datetime, if_neg hs']
      induction fmts with
      | nil => rfl
      | cons g gs ih =>
        have hg : strptime s' g = none := hall g (List.mem_cons_self g gs)
        simp only [try_formats, hg]
        exact ih (fun g' hg' => hall g' (List.mem_cons_of_mem g hg'))

/-- C7 witness: `"15-Jan-2024 10:30:00"` fails the first format
`"%d-%b-%Y"` (trailing input) and parses under the second,
`"%d-%b-%Y %H:%M:%S"`. -/
theorem c7_first_format_witness :
    ("15-Jan-2024 10:30:00".toList : Str) ≠ [] ∧
    strptime "15-Jan-2024 10:30:00".toList "%d-%b-%Y".toList = none ∧
    strptime "15-Jan-2024 10:30:00".toList "%d-%b-%Y %H:%M:%S".toList =
      some ⟨2024, 1, 15, 10, 30, 0⟩ ∧
    parse_datetime (some "15-Jan-2024 10:30:00".toList)
      ("%d-%b-%Y".toList :: "%d-%b-%Y %H:%M:%S".toList :: []) = some ⟨2024, 1, 15, 10, 30, 0⟩ :=
  ⟨by decide, by decide, by decide,
    (c7_first_format "15-Jan-2024 10:30:00".toList ["%d-%b-%Y".toList] []
      "%d-%b-%Y %H:%M:%S".toList ⟨2024, 1, 15, 10, 30, 0⟩ (by decide)
      (fun g hg => by rw [List.mem_singleton] at hg; subst hg; decide) (by decide)).1⟩

/-! ### `parsers.py`: string helpers and category parsers -/

/-- `str.strip()`: remove leading and trailing whitespace. -/
def py_strip (s : Str) : Str :=
  ((s.dropWhile Char.isWhitespace).reverse.dropWhile Char.isWhitespace).reverse

/-- `s.split(sep, 1)` for a one-character separator: one part when the
separator is absent, otherwise the parts before and after its first
occurrence. -/
def split_first (sep : Char) (s : Str) : List Str :=
  if (s.takeWhile (fun c => c != sep)).length = s.length then [s]
  else [s.takeWhile (fun c => c != sep), s.drop ((s.takeWhile (fun c => c != sep)).length + 1)]

/-- The membership test `pat in s` of Python: `pat` occurs as a contiguous
substring (the empty pattern is always contained). -/
def is_substring (pat : Str) : Str → Bool
  | [] => pat.isEmpty
  | c :: rest => pat.isPrefixOf (c :: rest) || is_substring pat rest

/-- `str.replace(pat, sub)`: replace every non-overlapping occurrence, left
to right. -/
def replace_all (pat sub : Str) (s : Str) : Str :=
  match s with
  | [] => []
  | c :: rest =>
    if h : pat ≠ [] ∧ pat.isPrefixOf (c :: rest) then
      sub ++ replace_all pat sub ((c :: rest).drop pat.length)
    else
      c :: replace_all pat sub rest
termination_by s.length
decreasing_by
  · simp only [List.length_drop, List.length_cons]
    have hpos : 0 < pat.length := List.length_pos.mpr h.1
    omega
  · simp only [List.length_cons]; omega

/-- `str.split(pat)` for a substring separator: split at every
non-overlapping occurrence, left to right. -/
def py_split (pat : Str) (s : Str) : List Str :=
  match s with
  | [] => [[]]
  | c :: rest =>
    if h : pat ≠ [] ∧ pat.isPrefixOf (c :: rest) then
      [] :: py_split pat ((c :: rest).drop pat.length)
    else
      match py_split pat rest with
      | [] => [[c]]
      | seg :: segs => (c :: seg) :: segs
termination_by s.length
decreasing_by
  · simp only [List.length_drop, List.length_cons]
    have hpos : 0 < pat.length := List.length_pos.mpr h.1
    omega
  · simp only [List.length_cons]; omega

/-- `s.replace(c, "", 1)` for a one-character pattern: drop the first
occurrence only. -/
def remove_first (c : Char) (s : Str) : Str :=
  match split_first c s with
  | [a, b] => a ++ b
  | _ => s

/-- A feedparser entry as the parsers access it: every field may be absent.
`published_parsed` carries the pre-parsed time struct already converted by
`datetime.fromtimestamp(time.mktime(...))`. -/
structure FeedEntry where
  title : Option Str
  link : Option Str
  description : Option Str
  published : Option Str
  published_parsed : Option PyDateTime
deriving DecidableEq, Repr

/-- Format `"%d-%b-%Y %H:%M:%S"`. -/
def fmt_dmY_HMS : Str := "%d-%b-%Y %H:%M:%S".toList

/-- Format `"%d-%b-%Y %H:%M"`. -/
def fmt_dmY_HM : Str := "%d-%b-%Y %H:%M".toList

/-- Format `"%d-%b-%Y"`. -/
def fmt_dmY : Str := "%d-%b-%Y".toList

/-- Decimal digits of a number. -/
def natDigits (n : Nat) : Str := Nat.toDigits 10 n

/-- Two-digit zero-padded field of `datetime.isoformat()`. -/
def pad2 (n : Nat) : Str := if n < 10 then '0' :: natDigits n else natDigits n

/-- Four-digit zero-padded year of `datetime.isoformat()`. -/
def pad4 (n : Nat) : Str := List.replicate (4 - (natDigits n).length) '0' ++ natDigits n

/-- `datetime.isoformat()` with zero microseconds: `YYYY-MM-DDTHH:MM:SS`. -/
def isoformat (d : PyDateTime) : Str :=
  pad4 d.year ++ "-".toList ++ pad2 d.month ++ "-".toList ++ pad2 d.day ++ "T".toList ++
    pad2 d.hour ++ ":".toList ++ pad2 d.minute ++ ":".toList ++ pad2 d.second

/-- `datetime.date().isoformat()`: `YYYY-MM-DD`. -/
def date_isoformat (d : PyDateTime) : Str :=
  pad4 d.year ++ "-".toList ++ pad2 d.month ++ "-".toList ++ pad2 d.day

/-- The tuple produced by `parse_announcement_entry`:
`(guid, title, link, description, published_at, company_symbol, summary)`. -/
structure AnnouncementRow where
  guid : Str
  title : Str
  link : Option Str
  description : Option Str
  published_at : Str
  company_symbol : Option Str
  summary : Str
deriving DecidableEq, Repr

/-- `parse_announcement_entry` (`parsers.py` lines 48-82): reject on a falsy
title; take `published_parsed` when present, else parse `published` with
`["%d-%b-%Y %H:%M:%S"]`; reject when no published date results; the guid is
the link when truthy, else `title + "-" + published_iso`. -/
def parse_announcement_entry (symbol_of : Str → Option Str) (e : FeedEntry) :
    Option AnnouncementRow :=
  if pyFalsy e.title then none
  else
    match (match e.published_parsed with
           | some d => some d
           | none => parse_datetime e.published [fmt_dmY_HMS]) with
    | none => none
    | some dt =>
      some ⟨(if pyFalsy e.link then e.title.getD [] ++ "-".toList ++ isoformat dt
             else e.link.getD []),
            e.title.getD [], e.link, e.description, isoformat dt,
            symbol_of (e.title.getD []), []⟩

/-- The meeting-date extraction of `parse_board_meeting_entry` (`parsers.py`
lines 122-125): split the description on `"|"`; when part 1 exists and
contains `"Meeting Date:"`, remove that label and strip, else the empty
string. -/
def meeting_date_str_of (description : Str) : Str :=
  match (description.splitOn '|').get? 1 with
  | some p1 =>
    if is_substring "Meeting Date:".toList p1 then
      py_strip (replace_all "Meeting Date:".toList [] p1)
    else []
  | none => []

/-- The tuple produced by `parse_board_meeting_entry`:
`(guid, title, link, meeting_date, published_at, company_symbol, summary)`
with the link column set to the guid. -/
structure BoardMeetingRow where
  guid : Str
  title : Str
  link : Str
  meeting_date : Str
  published_at : Str
  company_symbol : Option Str
  summary : Str
deriving DecidableEq, Repr

/-- `parse_board_meeting_entry` (`parsers.py` lines 106-134): reject on a
falsy link or title, an unparsable published date, or an unparsable meeting
date; the guid is the link. -/
def parse_board_meeting_entry (symbol_of : Str → Option Str) (e : FeedEntry) :
    Option BoardMeetingRow :=
  if pyFalsy e.link || pyFalsy e.title then none
  else
    match parse_datetime e.published [fmt_dmY_HMS] with
    | none => none
    | some pub =>
      match parse_datetime (some (meeting_date_str_of (e.description.getD []))) [fmt_dmY] with
      | none => none
      | some mdt =>
        some ⟨e.link.getD [], e.title.getD [], e.link.getD [], date_isoformat mdt,
              isoformat pub, symbol_of (e.title.getD []), []⟩

/-- The description dictionary of `parse_corporate_action_entry`
(`parsers.py` lines 174-181): split on `"|"`, split each item once at the
first `":"`, strip both sides, and keep values that are neither empty nor
the placeholder dash (later items overwrite earlier keys). -/
def desc_dict_of (description : Str) : List (Str × Str) :=
  (description.splitOn '|').foldl
    (fun d item =>
      match split_first ':' item with
      | [k, v] =>
        if py_strip v ≠ [] ∧ py_strip v ≠ "-".toList then d ++ [(py_strip k, py_strip v)]
        else d
      | _ => d) []

/-- `desc_dict.get(k)`: last binding wins, as in a Python dict built by
repeated assignment. -/
def dget (d : List (Str × Str)) (k : Str) : Option Str :=
  (d.reverse.find? (fun p => p.1 == k)).map (fun p => p.2)

/-- The tuple produced by `parse_corporate_action_entry` (`parsers.py`
lines 212-217).  The numeric `face_value` keeps the accepted numeral string
(the Python code converts it with `float`, preserving its value). -/
structure CorporateActionRow where
  guid : Str
  title : Str
  link : Option Str
  description : Str
  published_at : Str
  ex_date : Option Str
  series : Option Str
  purpose : Option Str
  face_value : Option Str
  record_date : Str
  company_symbol : Option Str
  summary : Str
deriving DecidableEq, Repr

/-- `parse_corporate_action_entry` (`parsers.py` lines 162-217): reject on a
falsy title or description, a missing record date, or unparsable
published/record dates; the guid is `title + "-" + record_date_str` (the raw
string from the description), regardless of the link. -/
def parse_corporate_action_entry (symbol_of : Str → Option Str) (e : FeedEntry) :
    Option CorporateActionRow :=
  if pyFalsy e.title || pyFalsy e.description then none
  else
    match dget (desc_dict_of (e.description.getD [])) "RECORD DATE".toList with
    | none => none
    | some record_date_str =>
      match parse_datetime e.published [fmt_dmY_HMS] with
      | none => none
      | some pub =>
        match parse_datetime (some record_date_str) [fmt_dmY] with
        | none => none
        | some rdt =>
          some ⟨e.title.getD [] ++ "-".toList ++ record_date_str, e.title.getD [], e.link,
                e.description.getD [], isoformat pub,
                (match parse_datetime
                    (some (if is_substring "Ex-Date:".toList (e.title.getD []) then
                        py_strip ((py_split "Ex-Date:".toList (e.title.getD [])).getD 1 [])
                      else [])) [fmt_dmY] with
                 | some exd => some (date_isoformat exd)
                 | none => none),
                dget (desc_dict_of (e.description.getD [])) "SERIES".toList,
                dget (desc_dict_of (e.description.getD [])) "PURPOSE".toList,
                (match dget (desc_dict_of (e.description.getD [])) "FACE VALUE".toList with
                 | some v =>
                   if remove_first '.' v ≠ [] ∧ (remove_first '.' v).all Char.isDigit then some v
                   else none
                 | none => none),
                date_isoformat rdt, symbol_of (e.title.getD []), []⟩

/-- The tuple produced by `parse_share_transfer_entry`:
`(guid, title, link, period_end_date, published_at, company_symbol,
summary)`. -/
structure ShareTransferRow where
  guid : Str
  title : Str
  link : Option Str
  period_end_date : Str
  published_at : Str
  company_symbol : Option Str
  summary : Str
deriving DecidableEq, Repr

/-- `parse_share_transfer_entry` (`parsers.py` lines 467-503): reject on a
falsy title or description, an unparsable published date, or an unparsable
period-end date; the guid is always
`sha256(title + description).hexdigest()`, even when a link is present. -/
def parse_share_transfer_entry (symbol_of : Str → Option Str) (sha256_hex : Str → Str)
    (e : FeedEntry) : Option ShareTransferRow :=
  if pyFalsy e.title || pyFalsy e.description then none
  else
    match parse_datetime e.published [fmt_dmY_HM] with
    | none => none
    | some pub =>
      match parse_datetime
          (some (if is_substring "PERIOD ENDED :".toList (e.description.getD []) then
              py_strip ((split_first ':' (e.description.getD [])).getD 1 [])
            else [])) [fmt_dmY] with
      | none => none
      | some pdt =>
        some ⟨sha256_hex (e.title.getD [] ++ e.description.getD []), e.title.getD [], e.link,
              date_isoformat pdt, isoformat pub, symbol_of (e.title.getD []), []⟩

/-! ### Claims about the category parsers -/

/-- An announcement-feed entry with an empty title. -/
def e_missing_title : FeedEntry := ⟨some [], some "L".toList, none, none, none⟩

/-- A board-meeting entry with no link. -/
def e_missing_link : FeedEntry :=
  ⟨some "T".toList, none, some "D".toList, some "bad".toList, none⟩

/-- An accepted announcement entry with a link. -/
def ann_entry : FeedEntry :=
  ⟨some "T".toList, some "L".toList, none, some "01-Jan-2024 10:00:00".toList, none⟩

/-- An accepted share-transfer entry that carries a link. -/
def st_entry : FeedEntry :=
  ⟨some "T".toList, some "L".toList, some "PERIOD ENDED : 15-Jan-2024".toList,
   some "01-Jan-2024 10:00".toList, none⟩

/-- An accepted corporate-action entry that carries a link. -/
def ce9_entry : FeedEntry :=
  ⟨some "ABC".toList, some "http://x".toList, some "RECORD DATE : 15-Jan-2024".toList,
   some "01-Jan-2024 10:00:00".toList, none⟩

/-- C8: a FeedEntry missing one of the parser's required fields makes the
parser return the reject signal `None` (the functions are total, so no
exception is raised).  For `parse_announcement_entry` the required fields
are a truthy title and a published date (pre-parsed or parseable);
for `parse_board_meeting_entry` a truthy link and title, a parseable
published date, and a parseable meeting date. -/
theorem c8_reject_missing_required (symbol_of : Str → Option Str) (e1 e2 : FeedEntry) :
    ((pyFalsy e1.title = true ∨
        (e1.published_parsed = none ∧ parse_datetime e1.published [fmt_dmY_HMS] = none)) →
      parse_announcement_entry symbol_of e1 = none)
    ∧ ((pyFalsy e2.link = true ∨ pyFalsy e2.title = true
        ∨ parse_datetime e2.published [fmt_dmY_HMS] = none
        ∨ parse_datetime (some (meeting_date_str_of (e2.description.getD []))) [fmt_dmY] = none) →
      parse_board_meeting_entry symbol_of e2 = none) := by
  constructor
  · intro h
    rcases h with ht | ⟨hpp, hpd⟩
    · simp [parse_announcement_entry, ht]
    · by_cases ht2 : pyFalsy e1.title = true
      · simp [parse_announcement_entry, ht2]
      · rw [Bool.not_eq_true] at ht2
        simp [parse_announcement_entry, ht2, hpp, hpd]
  · intro h
    by_cases hl : pyFalsy e2.link = true
    · simp [parse_board_meeting_entry, hl]
    · by_cases ht : pyFalsy e2.title = true
      · simp [parse_board_meeting_entry, ht]
      · rw [Bool.not_eq_true] at hl ht
        rcases h with h | h | hpub | hmd
        · rw [h] at hl; exact absurd hl (by simp)
        · rw [h] at ht; exact absurd ht (by simp)
        · simp [parse_board_meeting_entry, hl, ht, hpub]
        · cases hpub2 : parse_datetime e2.published [fmt_dmY_HMS] with
          | none => simp [parse_board_meeting_entry, hl, ht, hpub2]
          | some pub => simp [parse_board_meeting_entry, hl, ht, hpub2, hmd]

/-- C8 witness: an empty title rejects the announcement entry; a missing
link rejects the board-meeting entry. -/
theorem c8_reject_missing_required_witness :
    pyFalsy e_missing_title.title = true ∧
    pyFalsy e_missing_link.link = true ∧
    parse_announcement_entry (fun _ => none) e_missing_title = none ∧
    parse_board_meeting_entry (fun _ => none) e_missing_link = none :=
  ⟨by decide, by decide,
    (c8_reject_missing_required (fun _ => none) e_missing_title e_missing_link).1
      (Or.inl (by decide)),
    (c8_reject_missing_required (fun _ => none) e_missing_title e_missing_link).2
      (Or.inl (by decide))⟩

/-- C9 counterexample: an accepted corporate-action entry whose link is
present and truthy (`"http://x"`) still gets the guid
`title + "-" + record_date_str` (`"ABC-15-Jan-2024"`), not the literal link
— the claimed preference order (literal link first) does not hold. -/
theorem c9_counterexample :
    pyFalsy ce9_entry.link = false ∧
    (parse_corporate_action_entry (fun _ => none) ce9_entry).map (fun r => r.guid) =
      some "ABC-15-Jan-2024".toList ∧
    ("ABC-15-Jan-2024".toList : Str) ≠ "http://x".toList := by
  refine ⟨by decide, by decide, by decide⟩

/-- C9 amended: guid derivation is category-specific rather than a single
preference order.  The announcement parser prefers the literal link and
falls back to `title + "-" + published_iso` when the link is absent or
empty; the share-transfer parser always uses the content hash of
`title + description`, even when a link is present; the corporate-action
parser always uses `title + "-" + record_date_str` (the raw record-date
string from the description), even when a link is present. -/
theorem c9_amended (symbol_of : Str → Option Str) (sha256_hex : Str → Str)
    (e1 e2 e3 : FeedEntry) :
    (∀ r, parse_announcement_entry symbol_of e1 = some r →
      (pyFalsy e1.link = false → r.guid = e1.link.getD [])
      ∧ (pyFalsy e1.link = true → r.guid = r.title ++ "-".toList ++ r.published_at))
    ∧ (∀ r, parse_share_transfer_entry symbol_of sha256_hex e2 = some r →
      r.guid = sha256_hex (r.title ++ e2.description.getD []))
    ∧ (∀ r, parse_corporate_action_entry symbol_of e3 = some r →
      r.guid = r.title ++ "-".toList ++
        (dget (desc_dict_of (e3.description.getD [])) "RECORD DATE".toList).getD []) := by
  refine ⟨?_, ?_, ?_⟩
  · intro r h
    simp only [parse_announcement_entry] at h
    by_cases ht : pyFalsy e1.title = true
    · rw [if_pos ht] at h; exact absurd h (by simp)
    · rw [if_neg ht] at h
      cases hdt : (match e1.published_parsed with
                   | some d => some d
                   | none => parse_datetime e1.published [fmt_dmY_HMS]) with
      | none => rw [hdt] at h; exact absurd h (by simp)
      | some dt =>
        rw [hdt] at h
        simp only [Option.some.injEq] at h
        subst h
        constructor
        · intro hlf; simp [hlf]
        · intro hlt; simp [hlt]
  · intro r h
    simp only [parse_share_transfer_entry] at h
    split at h
    · exact absurd h (by simp)
    · split at h
      · exact absurd h (by simp)
      · split at h
        · exact absurd h (by simp)
        · simp only [Option.some.injEq] at h
          subst h
          rfl
  · intro r h
    simp only [parse_corporate_action_entry] at h
    split at h
    · exact absurd h (by simp)
    · cases hrd : dget (desc_dict_of (e3.description.getD [])) "RECORD DATE".toList with
      | none => rw [hrd] at h; exact absurd h (by simp)
      | some rds =>
        rw [hrd] at h
        dsimp only at h
        cases hpub : parse_datetime e3.published [fmt_dmY_HMS] with
        | none => rw [hpub] at h; exact absurd h (by simp)
        | some pub =>
          rw [hpub] at h
          dsimp only at h
          cases hrdt : parse_datetime (some rds) [fmt_dmY] with
          | none => rw [hrdt] at h; exact absurd h (by simp)
          | some rdt =>
            rw [hrdt] at h
            simp only [Option.some.injEq] at h
            subst h
            simp [hrd]

/-- C9 amended witness: concrete accepted entries for each of the three
parsers, with the guids as the amended claim derives them. -/
theorem c9_amended_witness :
    parse_corporate_action_entry (fun _ => none) ce9_entry =
      some ⟨"ABC-15-Jan-2024".toList, "ABC".toList, some "http://x".toList,
            "RECORD DATE : 15-Jan-2024".toList, "2024-01-01T10:00:00".toList, none, none, none,
            none, "2024-01-15".toList, none, []⟩ ∧
    ("ABC-15-Jan-2024".toList : Str) = "ABC".toList ++ "-".toList ++
      (dget (desc_dict_of (ce9_entry.description.getD [])) "RECORD DATE".toList).getD [] ∧
    parse_share_transfer_entry (fun _ => none) (fun _ => "HASH".toList) st_entry =
      some ⟨"HASH".toList, "T".toList, some "L".toList, "2024-01-15".toList,
            "2024-01-01T10:00:00".toList, none, []⟩ ∧
    parse_announcement_entry (fun _ => none) ann_entry =
      some ⟨"L".toList, "T".toList, some "L".toList, none, "2024-01-01T10:00:00".toList,
            none, []⟩ ∧
    pyFalsy ann_entry.link = false ∧
    ("L".toList : Str) = ann_entry.link.getD [] := by
  refine ⟨by decide, ?_, by decide, by decide, by decide, ?_⟩
  · exact (c9_amended (fun _ => none) (fun _ => "HASH".toList) ann_entry st_entry ce9_entry).2.2
      ⟨"ABC-15-Jan-2024".toList, "ABC".toList, some "http://x".toList,
       "RECORD DATE : 15-Jan-2024".toList, "2024-01-01T10:00:00".toList, none, none, none,
       none, "2024-01-15".toList, none, []⟩ (by decide)
  · exact ((c9_amended (fun _ => none) (fun _ => "HASH".toList) ann_entry st_entry ce9_entry).1
      ⟨"L".toList, "T".toList, some "L".toList, none, "2024-01-01T10:00:00".toList, none, []⟩
      (by decide)).1 (by decide)

end DhanVani
